import Mathlib

/-!
Verification of the claude-pms persistence, extraction and redaction core
(src/plugins/claude-pms/scripts) against its natural-language specification.

JSON documents are shallowly embedded as the inductive `JValue` (Python's
`None`/`null` is `JValue.null`, dicts are insertion-ordered association
lists, exactly as Python preserves insertion order).  `json.loads` is an
external library, so parsing is a parameter `parse : List Char → Option JValue`
of the functions that call it; file-system outcomes are the inductive
`LoadOutcome`.  Python code that can raise is embedded in `Except String`.
-/

/-- A JSON value as Python's json module produces it: `null`, booleans,
numbers (integer fragment suffices for the code under study), strings,
lists, and insertion-ordered dicts. -/
inductive JValue : Type where
  | null : JValue
  | bool : Bool → JValue
  | num : Int → JValue
  | str : String → JValue
  | arr : List JValue → JValue
  | obj : List (String × JValue) → JValue
  deriving Repr

mutual

/-- Decidable equality for `JValue` (nested inductive, so derived by hand). -/
def JValue.decEq : (a b : JValue) → Decidable (a = b)
  | .null, .null => isTrue rfl
  | .bool a, .bool b =>
    if h : a = b then isTrue (by rw [h])
    else isFalse (by intro hc; cases hc; exact h rfl)
  | .num a, .num b =>
    if h : a = b then isTrue (by rw [h])
    else isFalse (by intro hc; cases hc; exact h rfl)
  | .str a, .str b =>
    if h : a = b then isTrue (by rw [h])
    else isFalse (by intro hc; cases hc; exact h rfl)
  | .arr a, .arr b =>
    match JValue.decEqList a b with
    | isTrue h => isTrue (by rw [h])
    | isFalse h => isFalse (by intro hc; cases hc; exact h rfl)
  | .obj a, .obj b =>
    match JValue.decEqFields a b with
    | isTrue h => isTrue (by rw [h])
    | isFalse h => isFalse (by intro hc; cases hc; exact h rfl)
  | .null, .bool _ | .null, .num _ | .null, .str _ | .null, .arr _ | .null, .obj _
  | .bool _, .null | .bool _, .num _ | .bool _, .str _ | .bool _, .arr _ | .bool _, .obj _
  | .num _, .null | .num _, .bool _ | .num _, .str _ | .num _, .arr _ | .num _, .obj _
  | .str _, .null | .str _, .bool _ | .str _, .num _ | .str _, .arr _ | .str _, .obj _
  | .arr _, .null | .arr _, .bool _ | .arr _, .num _ | .arr _, .str _ | .arr _, .obj _
  | .obj _, .null | .obj _, .bool _ | .obj _, .num _ | .obj _, .str _ | .obj _, .arr _ =>
    isFalse (by intro hc; cases hc)

def JValue.decEqList : (a b : List JValue) → Decidable (a = b)
  | [], [] => isTrue rfl
  | [], _ :: _ => isFalse (by intro hc; cases hc)
  | _ :: _, [] => isFalse (by intro hc; cases hc)
  | x :: xs, y :: ys =>
    match JValue.decEq x y with
    | isFalse h => isFalse (by intro hc; cases hc; exact h rfl)
    | isTrue h =>
      match JValue.decEqList xs ys with
      | isTrue h' => isTrue (by rw [h, h'])
      | isFalse h' => isFalse (by intro hc; cases hc; exact h' rfl)

def JValue.decEqFields : (a b : List (String × JValue)) → Decidable (a = b)
  | [], [] => isTrue rfl
  | [], _ :: _ => isFalse (by intro hc; cases hc)
  | _ :: _, [] => isFalse (by intro hc; cases hc)
  | (k, x) :: xs, (k', y) :: ys =>
    if h : k = k' then
      match JValue.decEq x y with
      | isFalse h' => isFalse (by intro hc; cases hc; exact h' rfl)
      | isTrue h' =>
        match JValue.decEqFields xs ys with
        | isTrue h'' => isTrue (by rw [h, h', h''])
        | isFalse h'' => isFalse (by intro hc; cases hc; exact h'' rfl)
    else isFalse (by intro hc; cases hc; exact h rfl)

end

instance : DecidableEq JValue := JValue.decEq

/-- Python dict key lookup (`d[k]` / `k in d`): first binding wins; dicts
produced by `json.loads` have unique keys. -/
def getKey : List (String × JValue) → String → Option JValue
  | [], _ => none
  | (k, v) :: rest, key => if k = key then some v else getKey rest key

/-- Python dict assignment `d[k] = v`: overwrite in place when the key is
present, append a new binding at the end otherwise (insertion order). -/
def setKey : List (String × JValue) → String → JValue → List (String × JValue)
  | [], key, v => [(key, v)]
  | (k, w) :: rest, key, v =>
    if k = key then (key, v) :: rest else (k, w) :: setKey rest key v

/-- What opening and json-parsing a file can yield, seen from `safe_load`
(json_handler.py): the file is absent (`FileNotFoundError`), parses to a
value, is malformed (`json.JSONDecodeError`, carrying the raw text that
`_attempt_repair` will re-scan), or fails with some other error. -/
inductive LoadOutcome : Type where
  | absent : LoadOutcome
  | parsed : JValue → LoadOutcome
  | malformed : List Char → LoadOutcome
  | ioError : LoadOutcome

/-- A character at which `_attempt_repair` tries to truncate: `'}'` or `']'`. -/
def isCloser (c : Char) : Bool := c == '\x7d' || c == ']'

/-- The backward scan of `_attempt_repair` (json_handler.py lines 201-206):
positions `i-1, i-2, …, 0` are examined in turn; at each closing brace or
bracket the prefix up to and including it is parsed, and on parse failure
the scan continues (`continue`) at the next closing character further back. -/
def attemptRepairAux (parse : List Char → Option JValue) (content : List Char) :
    Nat → Option JValue
  | 0 => none
  | i + 1 =>
    match content.get? i with
    | some c =>
      if isCloser c then
        match parse (content.take (i + 1)) with
        | some v => some v
        | none => attemptRepairAux parse content i
      else attemptRepairAux parse content i
    | none => attemptRepairAux parse content i

/-- `_attempt_repair` (json_handler.py): `none` models the final
`raise Exception("Unable to repair JSON")`. -/
def attempt_repair (parse : List Char → Option JValue) (content : List Char) :
    Option JValue :=
  attemptRepairAux parse content content.length

/-- The repair procedure as the specification words it: find the last
`'}'`/`']'` in the file, parse the prefix truncated there, and if that one
parse fails give up (no other prefix is tried).  Stated for comparison with
`attempt_repair`, which is translated from the code. -/
def attemptRepairSpecWorded (parse : List Char → Option JValue)
    (content : List Char) : Option JValue :=
  go content.length
where
  go : Nat → Option JValue
    | 0 => none
    | i + 1 =>
      match content.get? i with
      | some c => if isCloser c then parse (content.take (i + 1)) else go i
      | none => go i

/-- `default if default is not None else {}` (json_handler.py lines 29, 37, 40). -/
def defaultOrEmpty : JValue → JValue
  | .null => JValue.obj []
  | d => d

/-- `safe_load` (json_handler.py lines 13-40): absent file gives the default
(normalised: a `None` default becomes `{}`); a successful parse gives the
value; a malformed file goes through `_attempt_repair`, falling back to the
default when repair fails; any other error gives the default. -/
def safe_load (parse : List Char → Option JValue) (o : LoadOutcome)
    (dflt : JValue) : JValue :=
  match o with
  | .absent => defaultOrEmpty dflt
  | .parsed v => v
  | .malformed content =>
    match attempt_repair parse content with
    | some v => v
    | none => defaultOrEmpty dflt
  | .ioError => defaultOrEmpty dflt

/-- The per-partition validation of `load_all_sessions` (extract.py lines
190-209), applied to what `safe_load` returned for the file: `data is None`
(the file parsed to JSON `null`) is corrupt; on a dict, a missing
`"sessions"` key or a non-list `"sessions"` value is corrupt; on a non-dict
the membership test or indexing raises (`TypeError`), caught by the
surrounding `except`, so it is corrupt as well.  `some l` is the list of
sessions a valid partition contributes. -/
def sessionsOfData : JValue → Option (List JValue)
  | .null => none
  | .obj fields =>
    match getKey fields "sessions" with
    | some (.arr l) => some l
    | _ => none
  | _ => none

/-- `load_all_sessions` (extract.py lines 170-216) over the sorted list of
partition files, each given as its path and its `LoadOutcome`; `safe_load`
is called with `default=None`.  Valid partitions contribute their sessions
in file order (`all_sessions.extend`); every other file's path is appended
to the corrupted list. -/
def load_all_sessions (parse : List Char → Option JValue) :
    List (String × LoadOutcome) → List JValue × List String
  | [] => ([], [])
  | (path, o) :: rest =>
    let (ss, cs) := load_all_sessions parse rest
    match sessionsOfData (safe_load parse o JValue.null) with
    | some l => (l ++ ss, cs)
    | none => (ss, path :: cs)

/-- Python `record.get(key)`: the stored value, or `None` when absent. -/
def pyGet (record : List (String × JValue)) (key : String) : JValue :=
  (getKey record key).getD JValue.null

/-- The document-building core of `merge_monthly` (json_handler.py lines
130-148), from the new session record and whatever `safe_load` returned for
the monthly file.  A non-dict document is replaced wholesale by
`{"sessions": []}`; a dict lacking `"sessions"` gets an empty list inserted
(at the end, Python dict insertion order); the record is appended, `count`
and `last_updated` are recomputed, and the resulting document is what
`safe_save` is asked to write (`.ok`).  A `"sessions"` value that is not a
list has no `.append`, raising `AttributeError`, caught by the outer
`except` which returns `False` (`.error`). -/
def merge_monthly (record : List (String × JValue)) (existing : JValue) :
    Except String (List (String × JValue)) :=
  let fs0 := match existing with
    | .obj fields => fields
    | _ => [("sessions", JValue.arr [])]
  let fs1 := if (getKey fs0 "sessions").isSome then fs0
    else fs0 ++ [("sessions", JValue.arr [])]
  match getKey fs1 "sessions" with
  | some (.arr l) =>
    let sessions' := l ++ [JValue.obj record]
    let fs2 := setKey fs1 "sessions" (JValue.arr sessions')
    let fs3 := setKey fs2 "count" (JValue.num sessions'.length)
    let fs4 := setKey fs3 "last_updated" (pyGet record "timestamp")
    .ok fs4
  | _ => .error "AttributeError"

/-- `categorize_strength` (extract.py lines 368-393). -/
def categorize_strength (occurrences emerging strong critical : Nat) : String :=
  if critical ≤ occurrences then "critical"
  else if strong ≤ occurrences then "strong"
  else if emerging ≤ occurrences then "emerging"
  else "weak"

/-- The ordinal the specification puts on strengths: weak < emerging <
strong < critical. -/
def strengthRank (s : String) : Nat :=
  if s = "critical" then 3
  else if s = "strong" then 2
  else if s = "emerging" then 1
  else 0

/-- Python `for x in v`: lists yield their elements, strings their
one-character substrings, dicts their keys; iterating any other value
raises `TypeError`. -/
def pyIter : JValue → Except String (List JValue)
  | .arr l => .ok l
  | .str s => .ok (s.data.map fun c => JValue.str (String.mk [c]))
  | .obj fields => .ok (fields.map fun kv => JValue.str kv.1)
  | _ => .error "TypeError"

/-- `defaultdict(list)` insert: `m[key].append(sid)`.  The first occurrence
of a key fixes its position (dict insertion order); list/dict keys are
unhashable and raise `TypeError`. -/
def addEvidence (m : List (JValue × List JValue)) (key sid : JValue) :
    Except String (List (JValue × List JValue)) :=
  match key with
  | .arr _ => .error "TypeError"
  | .obj _ => .error "TypeError"
  | _ =>
    .ok (go m)
where
  go : List (JValue × List JValue) → List (JValue × List JValue)
    | [] => [(key, [sid])]
    | (k, ev) :: rest =>
      if k = key then (k, ev ++ [sid]) :: rest else (k, ev) :: go rest

/-- The shared body of `extract_user_preferences`, `extract_code_patterns`
and `extract_anti_patterns` (extract.py lines 290-365, three textually
identical loops over a different field): for each session, read
`session.get("session_id", "unknown")` (a non-dict session has no `.get`
and raises `AttributeError`), then iterate the annotation list under
`field` when present, adding a bare string directly and a dict through its
`"description"` entry, skipping anything else. -/
def extractEvidenceMap (field : String) (sessions : List JValue) :
    Except String (List (JValue × List JValue)) :=
  sessions.foldlM
    (fun m session =>
      match session with
      | .obj fields =>
        let sid := (getKey fields "session_id").getD (JValue.str "unknown")
        match getKey fields field with
        | some anns => do
          let items ← pyIter anns
          items.foldlM
            (fun m item =>
              match item with
              | .str _ => addEvidence m item sid
              | .obj kvs =>
                match getKey kvs "description" with
                | some d => addEvidence m d sid
                | none => .ok m
              | _ => .ok m)
            m
        | none => .ok m
      | _ => .error "AttributeError")
    []

/-- `extract_user_preferences` (extract.py lines 290-313). -/
def extract_user_preferences (sessions : List JValue) :
    Except String (List (JValue × List JValue)) :=
  extractEvidenceMap "user_preferences" sessions

/-- `extract_code_patterns` (extract.py lines 316-339). -/
def extract_code_patterns (sessions : List JValue) :
    Except String (List (JValue × List JValue)) :=
  extractEvidenceMap "code_patterns" sessions

/-- `extract_anti_patterns` (extract.py lines 342-365). -/
def extract_anti_patterns (sessions : List JValue) :
    Except String (List (JValue × List JValue)) :=
  extractEvidenceMap "anti_patterns" sessions

/-- One detected pattern as `detect_frequency_patterns` builds it. -/
structure PatternR : Type where
  pattern_id : String
  description : JValue
  category : String
  strength : String
  occurrences : Nat
  evidence : List JValue
  detected_at : String
  deriving Repr, DecidableEq

/-- One of the three pattern-building loops of `detect_frequency_patterns`
(extract.py lines 241-285): keep each description whose evidence count
reaches the emerging threshold, classify it, and truncate its evidence to
the first 10 entries while `occurrences` keeps the full count.  `hash` is
Python's (process-seeded) string hash, a parameter here; `idKind` is the
`pref_`/`code_`/`anti_` id namespace and `cat` the category tag. -/
def buildPatterns (hashFn : JValue → Int) (now : String) (idKind cat : String)
    (entries : List (JValue × List JValue))
    (emerging strong critical : Nat) : List PatternR :=
  entries.filterMap fun (d, evidence) =>
    let occurrences := evidence.length
    if emerging ≤ occurrences then
      some
        { pattern_id := idKind ++ toString (hashFn d % 1000000)
          description := d
          category := cat
          strength := categorize_strength occurrences emerging strong critical
          occurrences := occurrences
          evidence := evidence.take 10
          detected_at := now }
    else none

/-- `detect_frequency_patterns` (extract.py lines 219-287): preference,
code-pattern and anti-pattern entries are collected in that order; an
exception from any evidence-map scan propagates to the caller (where
`extract_patterns` catches it). -/
def detect_frequency_patterns (hashFn : JValue → Int) (now : String)
    (sessions : List JValue) (emerging strong critical : Nat) :
    Except String (List PatternR) := do
  let prefs ← extract_user_preferences sessions
  let ps := buildPatterns hashFn now "pref_" "preference" prefs emerging strong critical
  let codes ← extract_code_patterns sessions
  let cs := buildPatterns hashFn now "code_" "code_pattern" codes emerging strong critical
  let antis ← extract_anti_patterns sessions
  let as' := buildPatterns hashFn now "anti_" "anti_pattern" antis emerging strong critical
  pure (ps ++ cs ++ as')

/-- `PMSConfig` (config.py lines 13-43) with its field defaults. -/
structure PMSConfig : Type where
  trigger_precompact : Bool := true
  trigger_session_end : Bool := true
  trigger_stop : Bool := false
  continuous_mode : Bool := true
  auto_synthesize : Bool := false
  min_sessions : Nat := 10
  emerging_pattern : Nat := 2
  strong_pattern : Nat := 3
  critical_pattern : Nat := 5
  prefer_context : Bool := true
  fallback_jsonl : Bool := true
  redact_sensitive_opt : Bool := true
  timeout_encode : Nat := 30
  timeout_extract : Nat := 60
  timeout_synthesize : Nat := 45
  deriving Repr, DecidableEq

/-- `get_default_config` (config.py lines 46-48). -/
def get_default_config : PMSConfig := {}

/-- `_parse_int` (config.py lines 159-170): the regex `^\s*key:\s*(\d+)`
either finds a digit string for the key (modelled by the abstract
frontmatter reading `getInt`) or not; a found value is clamped to
`[min_val, max_val]`, a missing key keeps the default.  No relation between
different keys is imposed. -/
def parse_int (getInt : String → Option Nat) (key : String)
    (dflt lo hi : Nat) : Nat :=
  match getInt key with
  | some v => max lo (min v hi)
  | none => dflt

/-- `_parse_bool` (config.py lines 146-156): the captured word, lowercased,
is compared against the true- and false-word sets; anything else keeps the
default. -/
def parse_bool (getWord : String → Option String) (key : String)
    (dflt : Bool) : Bool :=
  match getWord key with
  | some w =>
    let t := w.toLower
    if t = "true" ∨ t = "yes" ∨ t = "on" ∨ t = "1" then true
    else if t = "false" ∨ t = "no" ∨ t = "off" ∨ t = "0" then false
    else dflt
  | none => dflt

/-- How reading `.claude/pms.local.md` can go, seen from `load_config`: the
file is missing, has no YAML frontmatter, errors while being read, or
yields frontmatter abstracted as the two capture functions the `_parse_*`
helpers consult (`getInt` for `(\d+)` captures, `getWord` for `(\w+)`
captures). -/
inductive ConfigSource : Type where
  | missing : ConfigSource
  | noFrontmatter : ConfigSource
  | loadError : ConfigSource
  | frontmatter : (String → Option Nat) → (String → Option String) → ConfigSource

/-- `load_config` (config.py lines 51-114).  Each option is parsed and
clamped independently; the function returns without ever calling
`validate_config`. -/
def load_config : ConfigSource → PMSConfig
  | .missing => get_default_config
  | .noFrontmatter => get_default_config
  | .loadError => get_default_config
  | .frontmatter getInt getWord =>
    { trigger_precompact := parse_bool getWord "precompact" true
      trigger_session_end := parse_bool getWord "session_end" true
      trigger_stop := parse_bool getWord "stop" false
      continuous_mode := parse_bool getWord "continuous_mode" true
      auto_synthesize := parse_bool getWord "auto_synthesize" false
      min_sessions := parse_int getInt "min_sessions" 10 1 1000
      emerging_pattern := parse_int getInt "emerging_pattern" 2 1 100
      strong_pattern := parse_int getInt "strong_pattern" 3 1 100
      critical_pattern := parse_int getInt "critical_pattern" 5 1 100
      prefer_context := parse_bool getWord "prefer_context" true
      fallback_jsonl := parse_bool getWord "fallback_jsonl" true
      redact_sensitive_opt := parse_bool getWord "redact_sensitive" true
      timeout_encode := parse_int getInt "encode" 30 5 300
      timeout_extract := parse_int getInt "extract" 60 5 600
      timeout_synthesize := parse_int getInt "synthesize" 45 5 300 }

/-- `validate_config` (config.py lines 117-142): threshold ordering,
timeout ranges, `min_sessions` range.  Only the test suite calls it. -/
def validate_config (c : PMSConfig) : Bool :=
  (c.emerging_pattern ≤ c.strong_pattern && c.strong_pattern ≤ c.critical_pattern)
    && (5 ≤ c.timeout_encode && c.timeout_encode ≤ 300)
    && (5 ≤ c.timeout_extract && c.timeout_extract ≤ 600)
    && (5 ≤ c.timeout_synthesize && c.timeout_synthesize ≤ 300)
    && (1 ≤ c.min_sessions && c.min_sessions ≤ 1000)

/-!
Redaction (redaction.py).  Python's `re` is an external library; the exact
regexes of `DEFAULT_PATTERNS` use only literals, character classes with
greedy `+`/`{20,}`/`?`, one optional group `(?:RSA\s+)?`, one lazy `.*?`
(DOTALL) and `\b`, so they are embedded by a small backtracking matcher
over those constructs with Python's leftmost / backtracking-priority match
order.  Word characters are modelled at the ASCII fragment (`[A-Za-z0-9_]`);
Python's `\w`/`\b` additionally match non-ASCII word characters, which none
of the strings evaluated here contain.
-/

/-- `\w` at the ASCII fragment. -/
def isWordChar (c : Char) : Bool := c.isAlphanum || c == '_'

/-- `\s`: the ASCII whitespace class `[ \t\n\r\f\v]`. -/
def pyIsSpace (c : Char) : Bool :=
  c == ' ' || c == '\t' || c == '\n' || c == '\r' || c == '\x0b' || c == '\x0c'

/-- One construct of the regexes appearing in `DEFAULT_PATTERNS`. -/
inductive RItem : Type where
  | cls : (Char → Bool) → Nat → RItem
  | opt1 : (Char → Bool) → RItem
  | lit : String → Bool → RItem
  | optSeq : String → Bool → (Char → Bool) → RItem
  | lazyAny : RItem
  | wb : RItem

/-- Character comparison, optionally case-insensitive (`re.IGNORECASE`). -/
def charEqCI (ci : Bool) (a b : Char) : Bool :=
  if ci then a.toLower == b.toLower else a == b

/-- Does the text start with the literal (under the given case flag)? -/
def litMatch (ci : Bool) : List Char → List Char → Bool
  | [], _ => true
  | _ :: _, [] => false
  | a :: as', b :: bs => charEqCI ci a b && litMatch ci as' bs

/-- Length of the maximal run of class characters at the front of the text. -/
def clsRun (p : Char → Bool) : List Char → Nat
  | [] => 0
  | c :: rest => if p c then clsRun p rest + 1 else 0

/-- The lengths one item can consume at the current position, in the
backtracking engine's priority order: greedy pieces longest first, lazy
pieces shortest first, an optional group with-group first.  `prev` is the
character before the position (for `\b`). -/
def itemCands (it : RItem) (prev : Option Char) (t : List Char) : List Nat :=
  match it with
  | .cls p lo =>
    let m := clsRun p t
    if m < lo then [] else (List.range (m - lo + 1)).map (fun i => m - i)
  | .opt1 p =>
    match t with
    | c :: _ => if p c then [1, 0] else [0]
    | [] => [0]
  | .lit s ci => if litMatch ci s.data t then [s.data.length] else []
  | .optSeq s ci p =>
    if litMatch ci s.data t then
      let base := s.data.length
      let m := clsRun p (t.drop base)
      ((List.range m).map (fun i => base + (m - i))) ++ [0]
    else [0]
  | .lazyAny => List.range (t.length + 1)
  | .wb =>
    let wPrev := match prev with | some c => isWordChar c | none => false
    let wNext := match t with | c :: _ => isWordChar c | [] => false
    if wPrev != wNext then [0] else []

/-- The character preceding the position reached after consuming `n`
characters of `t` (for `\b` later in the pattern). -/
def prevAfter (prev : Option Char) (t : List Char) (n : Nat) : Option Char :=
  if n = 0 then prev else t.get? (n - 1)

/-- All total lengths a sequence of items can consume at this position, in
backtracking priority order; the head is the length Python's engine
reports. -/
def tryLens : List RItem → Option Char → List Char → List Nat
  | [], _, _ => [0]
  | it :: rest, prev, t =>
    (itemCands it prev t).flatMap fun n =>
      (tryLens rest (prevAfter prev t n) (t.drop n)).map (n + ·)

/-- The length of the match anchored at the current position, if any. -/
def pyMatchAt (r : List RItem) (prev : Option Char) (t : List Char) :
    Option Nat :=
  (tryLens r prev t).head?

/-- One left-to-right scan of the text, as `pattern.findall` (match count)
and `pattern.sub` (replacement) both perform it: at each position take the
anchored match if there is one, emit the replacement and resume after the
matched span, otherwise copy one character.  (The patterns under study
cannot match the empty string; a zero-length match is stepped over.)
Recursion is driven by a fuel argument that the caller sets to the text
length, which every step strictly exceeds the drop in text length, so the
`0` fuel case is never reached. -/
def reScanFuel (r : List RItem) (repl : List Char) :
    Nat → Option Char → List Char → List Char × Nat
  | _, _, [] => ([], 0)
  | 0, _, t => (t, 0)
  | fuel + 1, prev, c :: rest =>
    match pyMatchAt r prev (c :: rest) with
    | some (n + 1) =>
      let (out, k) := reScanFuel r repl fuel (prevAfter prev (c :: rest) (n + 1)) (rest.drop n)
      (repl ++ out, k + 1)
    | _ =>
      let (out, k) := reScanFuel r repl fuel (some c) rest
      (c :: out, k)

/-- The scan at full fuel. -/
def reScan (r : List RItem) (repl : List Char) (t : List Char) :
    List Char × Nat :=
  reScanFuel r repl t.length none t

/-- A compiled pattern as redaction.py uses one: `findall` (only its match
count is consumed) and `sub`. -/
structure RePat : Type where
  countMatches : String → Nat
  subst : String → String → String

/-- The `RePat` interface of one of the concrete regexes. -/
def rePat (r : List RItem) : RePat where
  countMatches := fun t => (reScan r [] t.data).2
  subst := fun repl t => String.mk (reScan r repl.data t.data).1

/-- `re.compile(r'\b[A-Za-z0-9_-]{20,}\b')`. -/
def tokenChar (c : Char) : Bool := c.isAlphanum || c == '_' || c == '-'

/-- `[\w-]`. -/
def wordDash (c : Char) : Bool := isWordChar c || c == '-'

/-- The separator class `[\'"\s:=]` (34 and 39 are the two quote
characters). -/
def sepChar (c : Char) : Bool :=
  c == Char.ofNat 39 || c == Char.ofNat 34 || pyIsSpace c || c == ':' || c == '='

/-- The value class `[^\s\'",}]` (125 is the closing brace). -/
def valueChar (c : Char) : Bool :=
  !(pyIsSpace c || c == Char.ofNat 39 || c == Char.ofNat 34 || c == ','
    || c == Char.ofNat 125)

/-- `[_-]?`. -/
def usDash (c : Char) : Bool := c == '_' || c == '-'

/-- `\b[A-Za-z0-9_-]{20,}\b`. -/
def tokenRgx : List RItem := [.wb, .cls tokenChar 20, .wb]

/-- `api[_-]?key[\'"\s:=]+[\w-]+` (IGNORECASE), and its three siblings. -/
def keyValueRgx (first second : String) : List RItem :=
  [.lit first true, .opt1 usDash, .lit second true, .cls sepChar 1, .cls wordDash 1]

/-- `password[\'"\s:=]+[^\s\'",}]+` (IGNORECASE), and `passwd`. -/
def passwordRgx (word : String) : List RItem :=
  [.lit word true, .cls sepChar 1, .cls valueChar 1]

/-- `credentials?[\'"\s:=]+[^\s\'",}]+` (IGNORECASE). -/
def credentialsRgx : List RItem :=
  [.lit "credential" true, .opt1 (fun c => c.toLower == 's'), .cls sepChar 1,
    .cls valueChar 1]

/-- `Bearer\s+[\w-]+` (IGNORECASE). -/
def bearerRgx : List RItem := [.lit "Bearer" true, .cls pyIsSpace 1, .cls wordDash 1]

/-- `-----BEGIN\s+(?:RSA\s+)?PRIVATE\s+KEY-----.*?-----END\s+(?:RSA\s+)?PRIVATE\s+KEY-----`
(DOTALL). -/
def pemRgx : List RItem :=
  [.lit "-----BEGIN" false, .cls pyIsSpace 1, .optSeq "RSA" false pyIsSpace,
    .lit "PRIVATE" false, .cls pyIsSpace 1, .lit "KEY-----" false, .lazyAny,
    .lit "-----END" false, .cls pyIsSpace 1, .optSeq "RSA" false pyIsSpace,
    .lit "PRIVATE" false, .cls pyIsSpace 1, .lit "KEY-----" false]

/-- `DEFAULT_PATTERNS` (redaction.py lines 11-31), in source order. -/
def DEFAULT_PATTERNS : List (RePat × String) :=
  [(rePat tokenRgx, "[REDACTED_TOKEN]"),
    (rePat (keyValueRgx "api" "key"), "api_key=[REDACTED]"),
    (rePat (keyValueRgx "access" "token"), "access_token=[REDACTED]"),
    (rePat (keyValueRgx "secret" "key"), "secret_key=[REDACTED]"),
    (rePat (keyValueRgx "auth" "token"), "auth_token=[REDACTED]"),
    (rePat (passwordRgx "password"), "password=[REDACTED]"),
    (rePat (passwordRgx "passwd"), "passwd=[REDACTED]"),
    (rePat credentialsRgx, "credentials=[REDACTED]"),
    (rePat bearerRgx, "Bearer [REDACTED]"),
    (rePat pemRgx, "[REDACTED_PRIVATE_KEY]")]

/-- `redact_sensitive` (redaction.py lines 34-58): each pattern in order;
when `findall` reports matches, their number is added to the count and the
substitution is applied to the running text. -/
def redact_sensitive : List (RePat × String) → String → String × Nat
  | [], t => (t, 0)
  | (p, repl) :: rest, t =>
    let m := p.countMatches t
    if 0 < m then
      let (t', k) := redact_sensitive rest (p.subst repl t)
      (t', m + k)
    else redact_sensitive rest t

mutual

/-- `detect_and_redact` (redaction.py lines 61-96): strings go through
`redact_sensitive`; dicts recurse into every value keeping all keys; lists
recurse into every element keeping order and length; other primitives are
returned unchanged with count 0. -/
def detect_and_redact (pats : List (RePat × String)) : JValue → JValue × Nat
  | .str s =>
    let (r, k) := redact_sensitive pats s
    (.str r, k)
  | .obj fields =>
    let (fs, k) := redactFields pats fields
    (.obj fs, k)
  | .arr l =>
    let (l', k) := redactElems pats l
    (.arr l', k)
  | .null => (.null, 0)
  | .bool b => (.bool b, 0)
  | .num n => (.num n, 0)

/-- The dict loop of `detect_and_redact`. -/
def redactFields (pats : List (RePat × String)) :
    List (String × JValue) → List (String × JValue) × Nat
  | [] => ([], 0)
  | (k, v) :: rest =>
    let (v', c) := detect_and_redact pats v
    let (rest', c') := redactFields pats rest
    ((k, v') :: rest', c + c')

/-- The list loop of `detect_and_redact`. -/
def redactElems (pats : List (RePat × String)) :
    List JValue → List JValue × Nat
  | [] => ([], 0)
  | v :: rest =>
    let (v', c) := detect_and_redact pats v
    let (rest', c') := redactElems pats rest
    (v' :: rest', c + c')

end

/-- The shape of a JSON value: its constructor tree with all strings,
numbers and booleans erased but keys, lengths and order kept. -/
inductive JShape : Type where
  | nullS : JShape
  | boolS : JShape
  | numS : JShape
  | strS : JShape
  | arrS : List JShape → JShape
  | objS : List (String × JShape) → JShape

mutual

/-- The shape of a value. -/
def shapeOf : JValue → JShape
  | .null => .nullS
  | .bool _ => .boolS
  | .num _ => .numS
  | .str _ => .strS
  | .arr l => .arrS (shapeOfList l)
  | .obj fields => .objS (shapeOfFields fields)

def shapeOfList : List JValue → List JShape
  | [] => []
  | v :: rest => shapeOf v :: shapeOfList rest

def shapeOfFields : List (String × JValue) → List (String × JShape)
  | [] => []
  | (k, v) :: rest => (k, shapeOf v) :: shapeOfFields rest

end

/-- A string leaf sitting at a given depth of a nested value (depth 0 is
the value itself being that string). -/
inductive LeafAt : JValue → Nat → String → Prop where
  | here (s : String) : LeafAt (.str s) 0 s
  | inObj {fields : List (String × JValue)} {k : String} {v : JValue} {d : Nat}
      {s : String} : (k, v) ∈ fields → LeafAt v d s →
      LeafAt (.obj fields) (d + 1) s
  | inArr {l : List JValue} {v : JValue} {d : Nat} {s : String} :
      v ∈ l → LeafAt v d s → LeafAt (.arr l) (d + 1) s

/-!
Concrete inputs used by counterexamples and witnesses.
-/

/-- `json.loads` restricted to the two strings the repair counterexample
evaluates it at: `json.loads("[]")` is the empty list, and both `"[]x]"`
and every other string here parses at is rejected (as `json.loads` rejects
`"[]x]"`: extra data after the closed array). -/
def parseToy : List Char → Option JValue := fun s =>
  if s = "[]".data then some (.arr []) else none

/-- Frontmatter whose digit captures are `emerging_pattern: 50`,
`strong_pattern: 3`, `critical_pattern: 5` — each inside its clamping range
`[1, 100]`, so `_parse_int` keeps all three as written. -/
def badThresholdInts : String → Option Nat := fun k =>
  if k = "emerging_pattern" then some 50
  else if k = "strong_pattern" then some 3
  else if k = "critical_pattern" then some 5
  else none

/-- The configuration `load_config` returns for that frontmatter. -/
def misorderedConfig : PMSConfig :=
  load_config (.frontmatter badThresholdInts (fun _ => none))

/-- A string leaf that is a fixpoint of redaction: it matches the
`password` pattern in full, and the pattern's replacement text is the
matched text itself. -/
def fixpointLeaf : String := "password=[REDACTED]"

/-- That leaf nested at depth 3. -/
def cexTree : JValue :=
  .obj [("a", .obj [("b", .obj [("c", .str fixpointLeaf)])])]

/-- The preference of the twelve-episode scenario. -/
def prefDesc : String := "Always run tests before commits"

/-- One episode of the scenario. -/
def mkEpisode (i : Nat) : JValue :=
  .obj [("session_id", .str ("s" ++ toString i)),
    ("timestamp", .str "2026-01-01T00:00:00Z"),
    ("user_preferences", .arr [.str prefDesc])]

/-- The twelve episodes. -/
def sessions12 : List JValue := (List.range 12).map mkEpisode

/-- The first ten contributing session ids, in first-encounter order. -/
def evidence10 : List JValue :=
  (List.range 10).map fun i => JValue.str ("s" ++ toString i)

/-- A small episode for witnesses: a session id and some preferences. -/
def epW (sid : String) (prefs : List String) : JValue :=
  .obj [("session_id", .str sid),
    ("user_preferences", .arr (prefs.map JValue.str))]

/-- Witness sessions: "A" occurs twice, "B" once. -/
def sessionsW : List JValue := [epW "w1" ["A", "B"], epW "w2" ["A"]]

/-- Witness record for the merge theorems. -/
def recW : List (String × JValue) :=
  [("session_id", .str "sX"), ("timestamp", .str "TS")]

/-!
Helper lemmas.
-/

theorem getKey_setKey_self (fs : List (String × JValue)) (k : String)
    (v : JValue) : getKey (setKey fs k v) k = some v := by
  induction fs with
  | nil => simp [setKey, getKey]
  | cons kv rest ih =>
    obtain ⟨k', w⟩ := kv
    by_cases h : k' = k
    · simp [setKey, h, getKey]
    · simp [setKey, h, getKey, ih]

theorem getKey_setKey_ne (fs : List (String × JValue)) (k k' : String)
    (v : JValue) (h : k' ≠ k) :
    getKey (setKey fs k v) k' = getKey fs k' := by
  induction fs with
  | nil =>
    simp only [setKey, getKey]
    rw [if_neg (fun hc => h hc.symm)]
  | cons kv rest ih =>
    obtain ⟨k₀, w⟩ := kv
    by_cases h0 : k₀ = k
    · subst h0
      simp only [setKey, if_pos rfl, getKey]
      rw [if_neg (fun hc => h hc.symm), if_neg (fun hc => h hc.symm)]
    · simp only [setKey, if_neg h0, getKey]
      by_cases h1 : k₀ = k'
      · rw [if_pos h1, if_pos h1]
      · rw [if_neg h1, if_neg h1]
        exact ih

/-- `C2 (code_bug)`: `load_config` never calls `validate_config` — with
frontmatter `emerging_pattern: 50`, `strong_pattern: 3`,
`critical_pattern: 5` (each inside its own clamping range) the returned
threshold triple violates `emerging ≤ strong ≤ critical`, the exact
ordering `validate_config` exists to reject, so the claim that the triple
returned by `load_config` always satisfies the ordering fails on the code:
validation is load-time dead code. -/
theorem c2_load_config_never_validates_thresholds :
    misorderedConfig.emerging_pattern = 50
      ∧ misorderedConfig.strong_pattern = 3
      ∧ misorderedConfig.critical_pattern = 5
      ∧ ¬ misorderedConfig.emerging_pattern ≤ misorderedConfig.strong_pattern
      ∧ validate_config misorderedConfig = false := by
  refine ⟨rfl, rfl, rfl, by decide, by decide⟩

/-- C3 counterexample: with the default `None` (`JValue.null`), an absent
file makes `safe_load` return `{}`, not the given default — so "if the
target file is absent it returns the given default" fails for the default
value `None`. -/
theorem c3_none_default_not_returned :
    safe_load (fun _ => none) LoadOutcome.absent JValue.null = JValue.obj []
      ∧ JValue.obj [] ≠ JValue.null := by
  exact ⟨rfl, by decide⟩

/-- C3 (amended): `safe_load` is a total function of the load outcome — no
outcome raises — and for every non-`None` default, an absent file, an
unrepaired malformed file and any other load error all return the given
default; a `None` default is degraded to `{}` in those same cases. -/
theorem c3_safe_load_degrades_to_default (parse : List Char → Option JValue)
    (dflt : JValue) (h : dflt ≠ JValue.null) :
    safe_load parse LoadOutcome.absent dflt = dflt
      ∧ safe_load parse LoadOutcome.ioError dflt = dflt
      ∧ (∀ content, attempt_repair parse content = none →
          safe_load parse (LoadOutcome.malformed content) dflt = dflt)
      ∧ safe_load parse LoadOutcome.absent JValue.null = JValue.obj []
      ∧ safe_load parse LoadOutcome.ioError JValue.null = JValue.obj [] := by
  have hd : defaultOrEmpty dflt = dflt := by
    cases dflt <;> first | rfl | exact absurd rfl h
  refine ⟨hd, hd, fun content hr => ?_, rfl, rfl⟩
  simp [safe_load, hr, hd]

/-- C3 witness: the amended theorem at the parse function rejecting
everything, default `"d"`, and the empty malformed file. -/
theorem c3_safe_load_degrades_to_default_witness :
    safe_load (fun _ => none) LoadOutcome.absent (JValue.str "d") = JValue.str "d"
      ∧ safe_load (fun _ => none) LoadOutcome.ioError (JValue.str "d") = JValue.str "d"
      ∧ safe_load (fun _ => none) (LoadOutcome.malformed []) (JValue.str "d")
          = JValue.str "d" := by
  have h := c3_safe_load_degrades_to_default (fun _ => none) (JValue.str "d")
    (by decide)
  exact ⟨h.1, h.2.1, h.2.2.1 [] rfl⟩

theorem attemptRepairAux_eq_none_iff (parse : List Char → Option JValue)
    (content : List Char) : ∀ n,
    attemptRepairAux parse content n = none ↔
      ∀ i, i < n → ∀ c, content.get? i = some c → isCloser c →
        parse (content.take (i + 1)) = none := by
  intro n
  induction n with
  | zero => simp [attemptRepairAux]
  | succ m ih =>
    have step : ∀ i, i < m + 1 → (i < m ∨ i = m) := fun i hi => by omega
    cases hg : content.get? m with
    | none =>
      simp only [attemptRepairAux, hg]
      rw [ih]
      constructor
      · intro hall i hi c hgi hc
        rcases step i hi with h' | h'
        · exact hall i h' c hgi hc
        · subst h'
          rw [hg] at hgi
          cases hgi
      · intro hall i hi c hgi hc
        exact hall i (by omega) c hgi hc
    | some c0 =>
      by_cases hc0 : isCloser c0
      · cases hp : parse (content.take (m + 1)) with
        | some v =>
          simp only [attemptRepairAux, hg, hc0, if_true, hp]
          constructor
          · intro hfalse
            cases hfalse
          · intro hall
            have := hall m (by omega) c0 hg hc0
            rw [hp] at this
            cases this
        | none =>
          simp only [attemptRepairAux, hg, hc0, if_true, hp]
          rw [ih]
          constructor
          · intro hall i hi c hgi hcl
            rcases step i hi with h' | h'
            · exact hall i h' c hgi hcl
            · subst h'
              rw [hg] at hgi
              cases hgi
              exact hp
          · intro hall i hi c hgi hcl
            exact hall i (by omega) c hgi hcl
      · simp only [attemptRepairAux, hg, hc0, Bool.false_eq_true, if_false]
        rw [ih]
        constructor
        · intro hall i hi c hgi hcl
          rcases step i hi with h' | h'
          · exact hall i h' c hgi hcl
          · subst h'
            rw [hg] at hgi
            cases hgi
            exact absurd hcl (by simpa using hc0)
        · intro hall i hi c hgi hcl
          exact hall i (by omega) c hgi hcl

theorem attemptRepairAux_eq_some (parse : List Char → Option JValue)
    (content : List Char) : ∀ n v,
    attemptRepairAux parse content n = some v →
      ∃ i, i < n ∧ ∃ c, content.get? i = some c ∧ isCloser c ∧
        parse (content.take (i + 1)) = some v ∧
        ∀ j, i < j → j < n → ∀ c', content.get? j = some c' → isCloser c' →
          parse (content.take (j + 1)) = none := by
  intro n
  induction n with
  | zero => intro v h; cases h
  | succ m ih =>
    intro v
    cases hg : content.get? m with
    | none =>
      simp only [attemptRepairAux, hg]
      intro h
      obtain ⟨i, hi, c, hgi, hcl, hp, hrest⟩ := ih v h
      refine ⟨i, by omega, c, hgi, hcl, hp, fun j hij hj c' hgj hcj => ?_⟩
      by_cases hjm : j = m
      · subst hjm
        rw [hg] at hgj
        cases hgj
      · exact hrest j hij (by omega) c' hgj hcj
    | some c0 =>
      by_cases hc0 : isCloser c0
      · cases hp : parse (content.take (m + 1)) with
        | some w =>
          simp only [attemptRepairAux, hg, hc0, if_true, hp]
          intro h
          cases h
          refine ⟨m, by omega, c0, hg, hc0, hp, fun j hij hj _ _ _ => ?_⟩
          omega
        | none =>
          simp only [attemptRepairAux, hg, hc0, if_true, hp]
          intro h
          obtain ⟨i, hi, c, hgi, hcl, hpi, hrest⟩ := ih v h
          refine ⟨i, by omega, c, hgi, hcl, hpi, fun j hij hj c' hgj hcj => ?_⟩
          by_cases hjm : j = m
          · subst hjm
            exact hp
          · exact hrest j hij (by omega) c' hgj hcj
      · simp only [attemptRepairAux, hg, hc0, Bool.false_eq_true, if_false]
        intro h
        obtain ⟨i, hi, c, hgi, hcl, hpi, hrest⟩ := ih v h
        refine ⟨i, by omega, c, hgi, hcl, hpi, fun j hij hj c' hgj hcj => ?_⟩
        by_cases hjm : j = m
        · subst hjm
          rw [hg] at hgj
          cases hgj
          exact absurd hcj (by simpa using hc0)
        · exact hrest j hij (by omega) c' hgj hcj

/-- C4 (amended): the repair scan of `safe_load` tries EVERY closing
`'}'`/`']'` position from end-of-file backward, not only the last one: it
returns the parse of the longest closing prefix that parses (every closing
prefix beyond it having failed), and `safe_load` falls back to the default
precisely when every closing prefix fails to parse. -/
theorem c4_repair_backward_scan (parse : List Char → Option JValue)
    (content : List Char) :
    (attempt_repair parse content = none ↔
      ∀ i c, content.get? i = some c → isCloser c →
        parse (content.take (i + 1)) = none)
    ∧ (∀ v, attempt_repair parse content = some v →
        ∃ i c, content.get? i = some c ∧ isCloser c ∧
          parse (content.take (i + 1)) = some v ∧
          ∀ j c', i < j → content.get? j = some c' → isCloser c' →
            parse (content.take (j + 1)) = none)
    ∧ (∀ dflt, attempt_repair parse content = none →
        safe_load parse (LoadOutcome.malformed content) dflt
          = defaultOrEmpty dflt) := by
  refine ⟨?_, ?_, ?_⟩
  · rw [attempt_repair, attemptRepairAux_eq_none_iff]
    constructor
    · intro hall i c hgi hcl
      have hi : i < content.length := by
        by_contra hge
        rw [List.get?_eq_none.2 (by omega)] at hgi
        cases hgi
      exact hall i hi c hgi hcl
    · intro hall i _ c hgi hcl
      exact hall i c hgi hcl
  · intro v h
    obtain ⟨i, hi, c, hgi, hcl, hp, hrest⟩ :=
      attemptRepairAux_eq_some parse content content.length v h
    refine ⟨i, c, hgi, hcl, hp, fun j c' hij hgj hcj => ?_⟩
    have hj : j < content.length := by
      by_contra hge
      rw [List.get?_eq_none.2 (by omega)] at hgj
      cases hgj
    exact hrest j hij hj c' hgj hcj
  · intro dflt hr
    simp [safe_load, hr]

/-- C4 counterexample: on the file text `"[]x]"` — whose last closing
character is the final `']'`, where the truncated prefix (the whole text)
fails to parse — the code's repair does not stop: it continues to the
earlier `']'`, parses `"[]"` successfully and returns `[]`, and `safe_load`
returns `[]` rather than the default.  The repair procedure as the claim
words it (only the last closing position tried) returns nothing here. -/
theorem c4_repair_tries_more_prefixes :
    parseToy "[]x]".data = none
      ∧ attempt_repair parseToy "[]x]".data = some (JValue.arr [])
      ∧ attemptRepairSpecWorded parseToy "[]x]".data = none
      ∧ safe_load parseToy (LoadOutcome.malformed "[]x]".data) (JValue.str "D")
          = JValue.arr [] := by
  exact ⟨by decide, by decide, by decide, by decide⟩

/-- C1: over any list of partition files (each given as path and load
outcome), `load_all_sessions` returns exactly the concatenation, in file
order, of the `sessions` lists of the partitions that load to a dict with
a list-valued `"sessions"` key, and reports as corrupt exactly the paths
of the partitions that do not (load failure, missing `"sessions"`,
non-list `"sessions"`), in order, without raising; in particular a
partition whose document is `{"sessions": "not-a-list"}` is reported
corrupt and contributes zero sessions. -/
theorem c1_load_all_sessions_partition (parse : List Char → Option JValue)
    (parts : List (String × LoadOutcome)) :
    (load_all_sessions parse parts).1
        = (parts.filterMap fun p =>
            sessionsOfData (safe_load parse p.2 JValue.null)).flatten
      ∧ (load_all_sessions parse parts).2
        = (parts.filter fun p =>
            (sessionsOfData (safe_load parse p.2 JValue.null)).isNone).map
              Prod.fst
      ∧ ∀ path, load_all_sessions parse
          [(path, LoadOutcome.parsed (.obj [("sessions", .str "not-a-list")]))]
          = ([], [path]) := by
  refine ⟨?_, ?_, fun path => rfl⟩
  · induction parts with
    | nil => rfl
    | cons p rest ih =>
      obtain ⟨path, o⟩ := p
      cases h : sessionsOfData (safe_load parse o JValue.null) with
      | some l => simp [load_all_sessions, h, ih]
      | none => simp [load_all_sessions, h, ih]
  · induction parts with
    | nil => rfl
    | cons p rest ih =>
      obtain ⟨path, o⟩ := p
      cases h : sessionsOfData (safe_load parse o JValue.null) with
      | some l => simp [load_all_sessions, h, ih]
      | none => simp [load_all_sessions, h, ih]

theorem getKey_append_of_none (fs l : List (String × JValue)) (k : String)
    (h : getKey fs k = none) : getKey (fs ++ l) k = getKey l k := by
  induction fs with
  | nil => rfl
  | cons kv rest ih =>
    obtain ⟨k₀, w⟩ := kv
    by_cases h0 : k₀ = k
    · simp [getKey, h0] at h
    · simp only [getKey, if_neg h0] at h
      simp only [List.cons_append, getKey, if_neg h0]
      exact ih h

/-- The three metadata lookups on the document `merge_monthly` hands to
`safe_save`, for any dict whose `"sessions"` value is the list `l`. -/
theorem merge_core (record fs1 : List (String × JValue)) (l : List JValue)
    (h : getKey fs1 "sessions" = some (JValue.arr l)) :
    merge_monthly record (JValue.obj fs1)
        = .ok (setKey (setKey (setKey fs1 "sessions"
            (JValue.arr (l ++ [JValue.obj record]))) "count"
            (JValue.num (l ++ [JValue.obj record]).length)) "last_updated"
            (pyGet record "timestamp"))
      ∧ getKey (setKey (setKey (setKey fs1 "sessions"
            (JValue.arr (l ++ [JValue.obj record]))) "count"
            (JValue.num (l ++ [JValue.obj record]).length)) "last_updated"
            (pyGet record "timestamp")) "sessions"
          = some (JValue.arr (l ++ [JValue.obj record]))
      ∧ getKey (setKey (setKey (setKey fs1 "sessions"
            (JValue.arr (l ++ [JValue.obj record]))) "count"
            (JValue.num (l ++ [JValue.obj record]).length)) "last_updated"
            (pyGet record "timestamp")) "count"
          = some (JValue.num (l ++ [JValue.obj record]).length)
      ∧ getKey (setKey (setKey (setKey fs1 "sessions"
            (JValue.arr (l ++ [JValue.obj record]))) "count"
            (JValue.num (l ++ [JValue.obj record]).length)) "last_updated"
            (pyGet record "timestamp")) "last_updated"
          = some (pyGet record "timestamp") := by
  refine ⟨?_, ?_, ?_, getKey_setKey_self _ _ _⟩
  · simp only [merge_monthly, h, Option.isSome_some, if_true]
  · rw [getKey_setKey_ne _ _ _ _ (by decide), getKey_setKey_ne _ _ _ _ (by decide)]
    exact getKey_setKey_self _ _ _
  · rw [getKey_setKey_ne _ _ _ _ (by decide)]
    exact getKey_setKey_self _ _ _

/-- C9: whenever `merge_monthly` reaches its save (returns the document to
be written), that document's `sessions` list is the previously stored list
with the new record appended, `count` equals the length of that post-append
list, and `last_updated` equals the appended episode's `timestamp` — both
metadata fields are recomputed from the post-append list and the new
record, never read from the previous document (`existing` is arbitrary
here, including arbitrary stale `count`/`last_updated` values). -/
theorem c9_merge_monthly_recomputes_metadata
    (record : List (String × JValue)) (existing : JValue)
    (doc : List (String × JValue)) (t : JValue)
    (h : merge_monthly record existing = .ok doc)
    (ht : getKey record "timestamp" = some t) :
    ∃ old, getKey doc "sessions" = some (JValue.arr (old ++ [JValue.obj record]))
      ∧ getKey doc "count" = some (JValue.num (old ++ [JValue.obj record]).length)
      ∧ getKey doc "last_updated" = some t := by
  have hpy : pyGet record "timestamp" = t := by
    simp [pyGet, ht]
  cases existing with
  | obj fields =>
    cases hs : getKey fields "sessions" with
    | some val =>
      cases val with
      | arr l =>
        obtain ⟨heq, h1, h2, h3⟩ := merge_core record fields l hs
        rw [heq] at h
        cases h
        exact ⟨l, h1, h2, by rw [h3, hpy]⟩
      | null =>
        simp [merge_monthly, hs] at h
      | bool b =>
        simp [merge_monthly, hs] at h
      | num n =>
        simp [merge_monthly, hs] at h
      | str s =>
        simp [merge_monthly, hs] at h
      | obj fs' =>
        simp [merge_monthly, hs] at h
    | none =>
      have hs1 : getKey (fields ++ [("sessions", JValue.arr [])]) "sessions"
          = some (.arr []) := by
        rw [getKey_append_of_none _ _ _ hs]
        rfl
      have hstep : merge_monthly record (.obj fields)
          = merge_monthly record (.obj (fields ++ [("sessions", JValue.arr [])])) := by
        simp [merge_monthly, hs, hs1]
      rw [hstep] at h
      obtain ⟨heq, h1, h2, h3⟩ :=
        merge_core record (fields ++ [("sessions", JValue.arr [])]) [] hs1
      rw [heq] at h
      cases h
      exact ⟨[], h1, h2, by rw [h3, hpy]⟩
  | null =>
    obtain ⟨heq, h1, h2, h3⟩ := merge_core record [("sessions", JValue.arr [])] [] rfl
    rw [show merge_monthly record JValue.null
        = merge_monthly record (.obj [("sessions", JValue.arr [])]) from rfl,
      heq] at h
    cases h
    exact ⟨[], h1, h2, by rw [h3, hpy]⟩
  | bool b =>
    obtain ⟨heq, h1, h2, h3⟩ := merge_core record [("sessions", JValue.arr [])] [] rfl
    rw [show merge_monthly record (JValue.bool b)
        = merge_monthly record (.obj [("sessions", JValue.arr [])]) from rfl,
      heq] at h
    cases h
    exact ⟨[], h1, h2, by rw [h3, hpy]⟩
  | num n =>
    obtain ⟨heq, h1, h2, h3⟩ := merge_core record [("sessions", JValue.arr [])] [] rfl
    rw [show merge_monthly record (JValue.num n)
        = merge_monthly record (.obj [("sessions", JValue.arr [])]) from rfl,
      heq] at h
    cases h
    exact ⟨[], h1, h2, by rw [h3, hpy]⟩
  | str s =>
    obtain ⟨heq, h1, h2, h3⟩ := merge_core record [("sessions", JValue.arr [])] [] rfl
    rw [show merge_monthly record (JValue.str s)
        = merge_monthly record (.obj [("sessions", JValue.arr [])]) from rfl,
      heq] at h
    cases h
    exact ⟨[], h1, h2, by rw [h3, hpy]⟩
  | arr l =>
    obtain ⟨heq, h1, h2, h3⟩ := merge_core record [("sessions", JValue.arr [])] [] rfl
    rw [show merge_monthly record (JValue.arr l)
        = merge_monthly record (.obj [("sessions", JValue.arr [])]) from rfl,
      heq] at h
    cases h
    exact ⟨[], h1, h2, by rw [h3, hpy]⟩

/-- C9 witness: the theorem at the record `{"session_id": "sX",
"timestamp": "TS"}` appended over a `null` prior document. -/
theorem c9_merge_monthly_recomputes_metadata_witness :
    ∃ old, getKey [("sessions", JValue.arr [JValue.obj recW]),
        ("count", JValue.num 1), ("last_updated", JValue.str "TS")] "sessions"
        = some (JValue.arr (old ++ [JValue.obj recW]))
      ∧ getKey [("sessions", JValue.arr [JValue.obj recW]),
          ("count", JValue.num 1), ("last_updated", JValue.str "TS")] "count"
        = some (JValue.num (old ++ [JValue.obj recW]).length)
      ∧ getKey [("sessions", JValue.arr [JValue.obj recW]),
          ("count", JValue.num 1), ("last_updated", JValue.str "TS")]
          "last_updated" = some (JValue.str "TS") :=
  c9_merge_monthly_recomputes_metadata recW JValue.null
    [("sessions", JValue.arr [JValue.obj recW]), ("count", JValue.num 1),
      ("last_updated", JValue.str "TS")] (JValue.str "TS") (by rfl) (by rfl)

/-- C10: a prior document that is not a dict is replaced wholesale — the
saved document holds exactly the fresh `sessions` list with the single new
episode plus the recomputed metadata, every previously stored field and
session silently discarded — and a dict without a `"sessions"` key gets an
empty list inserted so only the new episode is stored under it; in both
cases the merge reaches its save (`.ok`), reporting nothing about the
discarded or missing structure. -/
theorem c10_merge_monthly_discards_invalid_structure
    (record : List (String × JValue)) :
    (∀ v : JValue, (∀ fs, v ≠ .obj fs) →
      merge_monthly record v
        = .ok [("sessions", JValue.arr [JValue.obj record]), ("count", JValue.num 1),
            ("last_updated", pyGet record "timestamp")])
    ∧ (∀ fields, getKey fields "sessions" = none →
        ∃ doc, merge_monthly record (JValue.obj fields) = .ok doc
          ∧ getKey doc "sessions" = some (JValue.arr [JValue.obj record])) := by
  constructor
  · intro v hv
    cases v with
    | obj fs => exact absurd rfl (hv fs)
    | null => rfl
    | bool b => rfl
    | num n => rfl
    | str s => rfl
    | arr l => rfl
  · intro fields hs
    have hs1 : getKey (fields ++ [("sessions", JValue.arr [])]) "sessions"
        = some (.arr []) := by
      rw [getKey_append_of_none _ _ _ hs]
      rfl
    have hstep : merge_monthly record (.obj fields)
        = merge_monthly record (.obj (fields ++ [("sessions", JValue.arr [])])) := by
      simp [merge_monthly, hs, hs1]
    obtain ⟨heq, h1, _, _⟩ :=
      merge_core record (fields ++ [("sessions", JValue.arr [])]) [] hs1
    exact ⟨_, by rw [hstep, heq], h1⟩

theorem buildPatterns_occurrences (hashFn : JValue → Int) (now idKind cat : String)
    (entries : List (JValue × List JValue)) (emerging strong critical : Nat) :
    ∀ p ∈ buildPatterns hashFn now idKind cat entries emerging strong critical,
      emerging ≤ p.occurrences ∧ p.category = cat
        ∧ p.strength = categorize_strength p.occurrences emerging strong critical := by
  intro p hp
  rw [buildPatterns] at hp
  obtain ⟨⟨d, ev⟩, _, hf⟩ := List.mem_filterMap.1 hp
  by_cases hle : emerging ≤ ev.length
  · simp only [hle, if_true] at hf
    cases hf
    exact ⟨hle, rfl, rfl⟩
  · simp only [hle, if_false] at hf
    cases hf

theorem buildPatterns_covers (hashFn : JValue → Int) (now idKind cat : String)
    (entries : List (JValue × List JValue)) (emerging strong critical : Nat)
    (d : JValue) (ev : List JValue) (hmem : (d, ev) ∈ entries)
    (hle : emerging ≤ ev.length) :
    ∃ p ∈ buildPatterns hashFn now idKind cat entries emerging strong critical,
      p.description = d ∧ p.occurrences = ev.length ∧ p.category = cat := by
  refine ⟨{ pattern_id := idKind ++ toString (hashFn d % 1000000),
            description := d, category := cat,
            strength := categorize_strength ev.length emerging strong critical,
            occurrences := ev.length, evidence := ev.take 10,
            detected_at := now },
    List.mem_filterMap.2 ⟨(d, ev), hmem, ?_⟩, rfl, rfl, rfl⟩
  simp only [hle, if_true]

/-- C8: with thresholds `emerging ≤ strong ≤ critical`, the strength
`categorize_strength` assigns is monotonically non-decreasing in the
occurrence count (ordered weak < emerging < strong < critical); and in the
extraction output of `detect_frequency_patterns`, every emitted pattern has
`occurrences ≥ emerging` (so a description with `emerging - 1` occurrences
is excluded entirely, never emitted as "weak"), while every preference
description whose evidence count reaches `emerging` is included. -/
theorem c8_strength_monotone_and_threshold_filter :
    (∀ em st cr c c', em ≤ st → st ≤ cr → c ≤ c' →
      strengthRank (categorize_strength c em st cr)
        ≤ strengthRank (categorize_strength c' em st cr))
    ∧ ∀ (hashFn : JValue → Int) (now : String) (sessions : List JValue)
        (em st cr : Nat) (ps : List PatternR),
        detect_frequency_patterns hashFn now sessions em st cr = .ok ps →
        (∀ p ∈ ps, em ≤ p.occurrences)
        ∧ ∀ prefs, extract_user_preferences sessions = .ok prefs →
            ∀ d ev, (d, ev) ∈ prefs → em ≤ ev.length →
              ∃ p ∈ ps, p.description = d ∧ p.occurrences = ev.length
                ∧ p.category = "preference" := by
  constructor
  · intro em st cr c c' hes hsc hcc
    have r1 : strengthRank "critical" = 3 := rfl
    have r2 : strengthRank "strong" = 2 := rfl
    have r3 : strengthRank "emerging" = 1 := rfl
    have r4 : strengthRank "weak" = 0 := rfl
    unfold categorize_strength
    split_ifs <;> simp only [r1, r2, r3, r4] <;> omega
  · intro hashFn now sessions em st cr ps h
    cases hp : extract_user_preferences sessions with
    | error e => simp [detect_frequency_patterns, hp, bind, Except.bind, Functor.map, Except.map] at h
    | ok prefs0 =>
      cases hc : extract_code_patterns sessions with
      | error e => simp [detect_frequency_patterns, hp, hc, bind, Except.bind, Functor.map, Except.map] at h
      | ok codes0 =>
        cases ha : extract_anti_patterns sessions with
        | error e => simp [detect_frequency_patterns, hp, hc, ha, bind, Except.bind, Functor.map, Except.map] at h
        | ok antis0 =>
          have hps : ps
              = buildPatterns hashFn now "pref_" "preference" prefs0 em st cr
                ++ buildPatterns hashFn now "code_" "code_pattern" codes0 em st cr
                ++ buildPatterns hashFn now "anti_" "anti_pattern" antis0 em st cr := by
            simp only [detect_frequency_patterns, hp, hc, ha, bind, Except.bind, Functor.map, Except.map] at h
            cases h
            rfl
          subst hps
          constructor
          · intro p hpm
            rcases List.mem_append.1 hpm with h12 | h3
            · rcases List.mem_append.1 h12 with h1 | h2
              · exact (buildPatterns_occurrences _ _ _ _ _ _ _ _ p h1).1
              · exact (buildPatterns_occurrences _ _ _ _ _ _ _ _ p h2).1
            · exact (buildPatterns_occurrences _ _ _ _ _ _ _ _ p h3).1
          · intro prefs hpe d ev hmem hle
            cases hpe
            obtain ⟨p, hpm, hd, ho, hcat⟩ :=
              buildPatterns_covers hashFn now "pref_" "preference" prefs0
                em st cr d ev hmem hle
            exact ⟨p, List.mem_append_left _ (List.mem_append_left _ hpm),
              hd, ho, hcat⟩

/-- C8 witness: monotonicity at thresholds 2/3/5 with counts 1 ≤ 4, and the
filter and coverage parts at the two-episode witness session list, where
"A" has two occurrences (included, emerging) and "B" one (excluded). -/
theorem c8_strength_monotone_and_threshold_filter_witness :
    strengthRank (categorize_strength 1 2 3 5)
        ≤ strengthRank (categorize_strength 4 2 3 5)
      ∧ (∀ p ∈ [({ pattern_id := "pref_0", description := JValue.str "A",
                   category := "preference", strength := "emerging",
                   occurrences := 2,
                   evidence := [JValue.str "w1", JValue.str "w2"],
                   detected_at := "NOW" } : PatternR)], 2 ≤ p.occurrences)
      ∧ ∃ p ∈ [({ pattern_id := "pref_0", description := JValue.str "A",
                  category := "preference", strength := "emerging",
                  occurrences := 2,
                  evidence := [JValue.str "w1", JValue.str "w2"],
                  detected_at := "NOW" } : PatternR)],
          p.description = JValue.str "A" ∧ p.occurrences = 2
            ∧ p.category = "preference" := by
  have h := c8_strength_monotone_and_threshold_filter
  have h2 := h.2 (fun _ => 0) "NOW" sessionsW 2 3 5
    [{ pattern_id := "pref_0", description := JValue.str "A",
       category := "preference", strength := "emerging", occurrences := 2,
       evidence := [JValue.str "w1", JValue.str "w2"],
       detected_at := "NOW" }] rfl
  refine ⟨h.1 2 3 5 1 4 (by omega) (by omega) (by omega), h2.1, ?_⟩
  have h3 := h2.2
    [(JValue.str "A", [JValue.str "w1", JValue.str "w2"]),
      (JValue.str "B", [JValue.str "w1"])] rfl
    (JValue.str "A") [JValue.str "w1", JValue.str "w2"]
    (List.mem_cons_self _ _) (by decide)
  obtain ⟨p, hpm, hd, ho, hcat⟩ := h3
  exact ⟨p, hpm, hd, ho, hcat⟩

/-- C7: twelve episodes each carrying the one user preference, with default
thresholds 2/3/5, extract to exactly one preference pattern with
`occurrences = 12` (the true untruncated count) and strength `"critical"`,
whose evidence list is truncated to the first 10 contributing session ids
in first-encounter order.  `hashFn` (Python's seeded string hash, entering
only the pattern id) and the run timestamp are arbitrary. -/
theorem c7_twelve_episode_scenario (hashFn : JValue → Int) (now : String) :
    detect_frequency_patterns hashFn now sessions12 2 3 5
      = .ok [{ pattern_id :=
                 "pref_" ++ toString (hashFn (JValue.str prefDesc) % 1000000),
               description := JValue.str prefDesc, category := "preference",
               strength := "critical", occurrences := 12,
               evidence := evidence10, detected_at := now }] := by
  rfl

theorem redactFields_spec (pats : List (RePat × String)) :
    ∀ fields, redactFields pats fields
      = (fields.map fun kv => (kv.1, (detect_and_redact pats kv.2).1),
         (fields.map fun kv => (detect_and_redact pats kv.2).2).sum) := by
  intro fields
  induction fields with
  | nil => rfl
  | cons kv rest ih =>
    obtain ⟨k, v⟩ := kv
    simp [redactFields, ih]

theorem redactElems_spec (pats : List (RePat × String)) :
    ∀ l, redactElems pats l
      = (l.map fun v => (detect_and_redact pats v).1,
         (l.map fun v => (detect_and_redact pats v).2).sum) := by
  intro l
  induction l with
  | nil => rfl
  | cons v rest ih => simp [redactElems, ih]

mutual

theorem redact_preserves_shape (pats : List (RePat × String)) :
    (v : JValue) → shapeOf (detect_and_redact pats v).1 = shapeOf v
  | .null => rfl
  | .bool _ => rfl
  | .num _ => rfl
  | .str s => rfl
  | .obj fields => by
    simp only [detect_and_redact, shapeOf]
    rw [redact_fields_shape pats fields]
  | .arr l => by
    simp only [detect_and_redact, shapeOf]
    rw [redact_elems_shape pats l]

theorem redact_fields_shape (pats : List (RePat × String)) :
    (fields : List (String × JValue)) →
      shapeOfFields (redactFields pats fields).1 = shapeOfFields fields
  | [] => rfl
  | (k, v) :: rest => by
    simp only [redactFields, shapeOfFields]
    rw [redact_preserves_shape pats v, redact_fields_shape pats rest]

theorem redact_elems_shape (pats : List (RePat × String)) :
    (l : List JValue) →
      shapeOfList (redactElems pats l).1 = shapeOfList l
  | [] => rfl
  | v :: rest => by
    simp only [redactElems, shapeOfList]
    rw [redact_preserves_shape pats v, redact_elems_shape pats rest]

end

/-- C6: for every pattern list and value, `detect_and_redact` preserves the
value's shape (constructor, key set and order, sequence length and order),
and aggregates counts structurally: on a dict it recurses into every value
keeping all keys and sums the child counts; on a list it recurses into
every element keeping order and length and sums the child counts; on a
non-string primitive it returns the value unchanged with count zero. -/
theorem c6_detect_and_redact_structural (pats : List (RePat × String)) :
    (∀ v, shapeOf (detect_and_redact pats v).1 = shapeOf v)
      ∧ (∀ fields, detect_and_redact pats (.obj fields)
          = (.obj (fields.map fun kv => (kv.1, (detect_and_redact pats kv.2).1)),
             (fields.map fun kv => (detect_and_redact pats kv.2).2).sum))
      ∧ (∀ l, detect_and_redact pats (.arr l)
          = (.arr (l.map fun v => (detect_and_redact pats v).1),
             (l.map fun v => (detect_and_redact pats v).2).sum))
      ∧ detect_and_redact pats .null = (.null, 0)
      ∧ (∀ b, detect_and_redact pats (.bool b) = (.bool b, 0))
      ∧ (∀ n, detect_and_redact pats (.num n) = (.num n, 0)) := by
  refine ⟨redact_preserves_shape pats, fun fields => ?_, fun l => ?_,
    rfl, fun b => rfl, fun n => rfl⟩
  · simp [detect_and_redact, redactFields_spec]
  · simp [detect_and_redact, redactElems_spec]

theorem redact_sensitive_pos :
    ∀ (pats : List (RePat × String)) (t : String),
      (∃ pr ∈ pats, 1 ≤ pr.1.countMatches t) →
      1 ≤ (redact_sensitive pats t).2 := by
  intro pats
  induction pats with
  | nil =>
    intro t h
    obtain ⟨pr, hm, _⟩ := h
    cases hm
  | cons p rest ih =>
    intro t h
    obtain ⟨pp, repl⟩ := p
    by_cases hm : 0 < pp.countMatches t
    · simp only [redact_sensitive, if_pos hm]
      omega
    · simp only [redact_sensitive, if_neg hm]
      obtain ⟨pr, hmem, hc⟩ := h
      rcases List.mem_cons.1 hmem with hh | ht
      · cases hh
        exact absurd hc hm
      · exact ih t ⟨pr, ht, hc⟩

theorem leaf_match_counted (pats : List (RePat × String)) :
    ∀ {v : JValue} {d : Nat} {s : String}, LeafAt v d s →
      (∃ pr ∈ pats, 1 ≤ pr.1.countMatches s) →
      1 ≤ (detect_and_redact pats v).2 := by
  intro v d s hleaf
  induction hleaf with
  | here t =>
    intro h
    simpa [detect_and_redact] using redact_sensitive_pos pats t h
  | inObj hmem _ ih =>
    intro h
    have h1 := ih h
    have h2 := List.mem_map_of_mem
      (fun kv => (detect_and_redact pats kv.2).2) hmem
    simp only [detect_and_redact, redactFields_spec]
    exact le_trans h1 (List.single_le_sum (fun x _ => Nat.zero_le x) _ h2)
  | inArr hmem _ ih =>
    intro h
    have h1 := ih h
    have h2 := List.mem_map_of_mem
      (fun v => (detect_and_redact pats v).2) hmem
    simp only [detect_and_redact, redactElems_spec]
    exact le_trans h1 (List.single_le_sum (fun x _ => Nat.zero_le x) _ h2)

/-- C5 counterexample: the leaf `"password=[REDACTED]"` at depth 3 matches
the built-in `password` pattern in full (the anchored match spans all 19
characters), yet `detect_and_redact` maps the whole structure to itself —
the substitution rewrites the matched span to the identical text — so the
matched substring is present, as an entire leaf, in the output: it is not
absent from every leaf. -/
theorem c5_fixpoint_leaf_survives :
    (rePat (passwordRgx "password")).countMatches fixpointLeaf = 1
      ∧ pyMatchAt (passwordRgx "password") none fixpointLeaf.data
          = some fixpointLeaf.data.length
      ∧ (rePat (passwordRgx "password")).subst "password=[REDACTED]" fixpointLeaf
          = fixpointLeaf
      ∧ detect_and_redact DEFAULT_PATTERNS cexTree = (cexTree, 1)
      ∧ LeafAt cexTree 3 fixpointLeaf := by
  refine ⟨by decide, by decide, by decide, by decide, ?_⟩
  exact LeafAt.inObj (List.mem_cons_self _ _)
    (LeafAt.inObj (List.mem_cons_self _ _)
      (LeafAt.inObj (List.mem_cons_self _ _) (LeafAt.here _)))

/-- C5 (amended): for any nested value containing at depth ≥ 3 a string
leaf that matches a built-in sensitive pattern, the redaction pass
preserves the structure's shape (types, key sets, sequence lengths) and
detects the match — the total redaction count is at least 1, the matched
span being rewritten to the pattern's replacement text.  The matched
substring need not be absent from the output's leaves: a replacement can
reproduce it (the counterexample's leaf is its own replacement), and the
same substring may sit unmatched in other leaves. -/
theorem c5_redaction_preserves_shape_and_detects (v : JValue) (d : Nat)
    (s : String) (hleaf : LeafAt v d s) (_hd : 3 ≤ d)
    (hmatch : ∃ pr ∈ DEFAULT_PATTERNS, 1 ≤ pr.1.countMatches s) :
    shapeOf (detect_and_redact DEFAULT_PATTERNS v).1 = shapeOf v
      ∧ 1 ≤ (detect_and_redact DEFAULT_PATTERNS v).2 :=
  ⟨redact_preserves_shape DEFAULT_PATTERNS v,
    leaf_match_counted DEFAULT_PATTERNS hleaf hmatch⟩

/-- C5 witness: the amended theorem at the depth-3 tree around
`"password=[REDACTED]"`, with the `password` pattern as the matching
built-in. -/
theorem c5_redaction_preserves_shape_and_detects_witness :
    shapeOf (detect_and_redact DEFAULT_PATTERNS cexTree).1 = shapeOf cexTree
      ∧ 1 ≤ (detect_and_redact DEFAULT_PATTERNS cexTree).2 := by
  have hleaf : LeafAt cexTree 3 fixpointLeaf :=
    LeafAt.inObj (List.mem_cons_self _ _)
      (LeafAt.inObj (List.mem_cons_self _ _)
        (LeafAt.inObj (List.mem_cons_self _ _) (LeafAt.here _)))
  have hmem : (rePat (passwordRgx "password"), "password=[REDACTED]")
      ∈ DEFAULT_PATTERNS := by
    unfold DEFAULT_PATTERNS
    exact List.mem_cons_of_mem _ (List.mem_cons_of_mem _
      (List.mem_cons_of_mem _ (List.mem_cons_of_mem _
        (List.mem_cons_of_mem _ (List.mem_cons_self _ _)))))
  exact c5_redaction_preserves_shape_and_detects cexTree 3 fixpointLeaf hleaf
    (by omega) ⟨_, hmem, by decide⟩
